import Mathlib

/-!
Verification of the real-time direct-messaging subsystem of the
NYU-Marketplace backend (`backend/apps/chat/`): a shallow embedding of the
relevant models, serializers, view actions and the websocket consumer,
followed by theorems settling the spec's claims about them.

Modelling conventions:
* user ids are naturals (`User.id` is an integer `AutoField`);
* conversation and message ids are naturals (UUIDs in the source; only
  identity and string rendering of ids matter to any claim);
* timestamps (`created_at`, `last_message_at`, ...) are naturals; the
  `isoformat` rendering used on the wire is modelled by the canonical
  decimal rendering, an injective encoding, and timestamp comparisons in
  queries are modelled by the order on naturals;
* database tables are lists of rows; `.get`/`.filter`/`.exists` become
  `List.find?`/`List.filter`/`List.any`;
* Python's `str.strip()` is modelled by `pyStrip` below (drop whitespace
  from both ends).
-/

deriving instance DecidableEq for Except

namespace Chat

/-- Python's `str.strip()` on the underlying character list: drop leading
and trailing whitespace characters. -/
def stripChars (l : List Char) : List Char :=
  ((l.dropWhile Char.isWhitespace).reverse.dropWhile Char.isWhitespace).reverse

/-- Python's `str.strip()` (no arguments): trim whitespace at both ends. -/
def pyStrip (s : String) : String :=
  String.mk (stripChars s.data)

/-- Row of the `Conversation` model (`chat/models.py`).  `type` is always
`"DIRECT"` in the source and carries no behavior, so it is omitted. -/
structure Conv where
  id : Nat
  direct_key : String
  created_by : Nat
  last_message_at : Option Nat
deriving DecidableEq, Repr

/-- Row of the `ConversationParticipant` model (`chat/models.py`). -/
structure Participant where
  conversation : Nat
  user : Nat
  last_read_message : Option Nat
  last_read_at : Option Nat
deriving DecidableEq, Repr

/-- Row of the `Message` model (`chat/models.py`).  The unused
forward-compatibility fields (`attachments`, `metadata`, `reply_to`,
`edited_at`, `deleted_at`) carry no behavior in any code path a claim
touches and are omitted. -/
structure Msg where
  id : Nat
  conversation : Nat
  sender : Nat
  text : String
  created_at : Nat
deriving DecidableEq, Repr

/-- The chat tables of the relational store. -/
structure Store where
  conversations : List Conv
  participants : List Participant
  messages : List Msg
deriving DecidableEq, Repr

/-- Lookup `Conversation.objects.get(pk=...)`. -/
def findConv (s : Store) (convId : Nat) : Option Conv :=
  s.conversations.find? (fun c => decide (c.id = convId))

/-- Lookup `Message.objects.get(pk=...)` (no conversation filter). -/
def getMsg (s : Store) (msgId : Nat) : Option Msg :=
  s.messages.find? (fun m => decide (m.id = msgId))

/-- Lookup `Message.objects.get(pk=message_id, conversation=conv)`. -/
def findMsgIn (s : Store) (msgId convId : Nat) : Option Msg :=
  s.messages.find? (fun m => decide (m.id = msgId ∧ m.conversation = convId))

/-- Lookup `ConversationParticipant.objects.get(conversation=conv, user=user)`. -/
def findPart (s : Store) (convId uid : Nat) : Option Participant :=
  s.participants.find? (fun p => decide (p.conversation = convId ∧ p.user = uid))

/-- Existence query `ConversationParticipant.objects.filter(conversation_id=..., user_id=...).exists()` —
the membership check used by both `ChatConsumer._is_member` and the
`IsConversationMember` permission. -/
def isMember (s : Store) (uid convId : Nat) : Bool :=
  s.participants.any (fun p => decide (p.conversation = convId ∧ p.user = uid))

/-- Queryset `Message.objects.filter(conversation=conv)`. -/
def convMsgs (s : Store) (convId : Nat) : List Msg :=
  s.messages.filter (fun m => decide (m.conversation = convId))

/-- Update `Conversation.objects.filter(pk=conv.pk).update(last_message_at=t)`. -/
def touchConv (convs : List Conv) (convId t : Nat) : List Conv :=
  convs.map (fun c => if c.id = convId then { c with last_message_at := some t } else c)

/-- Python's `<` on strings, on the underlying character lists:
lexicographic comparison by code point. -/
def charListLt : List Char → List Char → Bool
  | _, [] => false
  | [], _ :: _ => true
  | a :: as, b :: bs => if a < b then true else if b < a then false else charListLt as bs

/-- Python's `<` on strings. -/
def strLt (a b : String) : Bool := charListLt a.data b.data

/-- Model of `Conversation.make_direct_key(u1_id, u2_id)` (`chat/models.py`):
`a, b = sorted([str(u1_id), str(u2_id)]); return f"{a}:{b}"` — the two ids
rendered as strings, sorted lexicographically (ascending; `sorted` swaps
the pair exactly when the second string compares below the first), joined
with `":"`. -/
def make_direct_key (u1_id u2_id : Nat) : String :=
  let s1 := toString u1_id
  let s2 := toString u2_id
  if strLt s2 s1 then s2 ++ ":" ++ s1 else s1 ++ ":" ++ s2

/-- The participant back-fill inside `ConversationViewSet.direct`:
`have = set(...); need = {request.user.id, peer.id} - have; create each`. -/
def ensureParticipants (s : Store) (conv : Conv) (meId peerId : Nat) : Store :=
  let want := if meId = peerId then [meId] else [meId, peerId]
  let need := want.filter (fun u => !(isMember s u conv.id))
  { s with participants :=
      s.participants ++ need.map (fun u =>
        { conversation := conv.id, user := u,
          last_read_message := none, last_read_at := none }) }

/-- The transactional body of `ConversationViewSet.direct`
(`chat/views.py`): `get_or_create(direct_key=dk, defaults=...)` against the
unique `direct_key` column, then idempotent participant insertion.  Returns
the store, the conversation row, and the `created` flag. -/
def getOrCreateDirect (s : Store) (meId peerId newConvId : Nat) : Store × Conv × Bool :=
  let dk := make_direct_key meId peerId
  match s.conversations.find? (fun c => decide (c.direct_key = dk)) with
  | some conv => (ensureParticipants s conv meId peerId, conv, false)
  | none =>
    let conv : Conv :=
      { id := newConvId, direct_key := dk, created_by := meId, last_message_at := none }
    let s1 := { s with conversations := s.conversations ++ [conv] }
    (ensureParticipants s1 conv meId peerId, conv, true)

/-- Error outcomes of the REST actions. -/
inductive ApiError where
  /-- `serializers.ValidationError` rendered as HTTP 400. -/
  | validation (detail : String)
  /-- an explicit 404 / 400 response body. -/
  | notFound (detail : String)
  /-- an exception the view does not catch (HTTP 500). -/
  | uncaught
deriving DecidableEq, Repr

/-- Django's `AutoField` primary-key coercion applied to the `peer_id`
string by `User.objects.get(pk=peer_id)`: `int(value)`, which accepts any
decimal-digit string, leading zeros included, and canonicalizes it. -/
def parsePkInt (raw : String) : Option Nat :=
  if raw ≠ "" ∧ raw.data.all Char.isDigit then
    some (raw.data.foldl (fun acc c => acc * 10 + (c.toNat - 48)) 0)
  else none

/-- Model of `ConversationViewSet.direct` (`chat/views.py`) together with
`DirectCreateSerializer.validate` (`chat/serializers.py`): reject when
`str(request.user.id) == str(peer_id)`, resolve the peer by primary key
(404 when no such user), then run `getOrCreateDirect`.  `users` is the
`User` table (ids only); the caller is authenticated. -/
def direct (s : Store) (users : List Nat) (meId : Nat) (peer_id : String)
    (newConvId : Nat) : Except ApiError (Store × Conv × Bool) :=
  if toString meId = peer_id then
    Except.error (ApiError.validation "Cannot start a chat with yourself.")
  else
    match parsePkInt peer_id with
    | none => Except.error ApiError.uncaught
    | some pid =>
      if pid ∈ users then Except.ok (getOrCreateDirect s meId pid newConvId)
      else Except.error (ApiError.notFound "peer not found")

/-- Model of `ConversationViewSet.send` (`chat/views.py`), after `get_object()` has
resolved the conversation: `MessageCreateSerializer.validate` rejects text
that is empty after `strip()`; otherwise a message row holding the stripped
text is inserted with `created_at = now` and the conversation's
`last_message_at` is set to it. -/
def send (s : Store) (uid convId : Nat) (text : String) (now newId : Nat) :
    Except ApiError (Store × Msg) :=
  if pyStrip text = "" then
    Except.error (ApiError.validation "Message text cannot be empty.")
  else
    let m : Msg :=
      { id := newId, conversation := convId, sender := uid,
        text := pyStrip text, created_at := now }
    Except.ok ({ s with
                  messages := s.messages ++ [m],
                  conversations := touchConv s.conversations convId now }, m)

/-- Result of `ConversationViewSet.read`: either the 400 response for an
unknown / foreign `message_id`, an uncaught participant-lookup failure, or
the success payload carrying the resulting cursor. -/
inductive ReadResult where
  | invalidMessage
  | participantMissing
  | ok (last_read_message : Option Nat)
deriving DecidableEq, Repr

/-- Replace the `(conversation, user)` participant row by `f` of it
(`part.save(update_fields=[...])`). -/
def updatePart (parts : List Participant) (convId uid : Nat)
    (f : Participant → Participant) : List Participant :=
  parts.map (fun p => if p.conversation = convId ∧ p.user = uid then f p else p)

/-- Model of `ConversationViewSet.read` (`chat/views.py`): look up the message in
this conversation (400 otherwise), look up the caller's participant row,
and advance `last_read_message` / `last_read_at` only when no cursor is
recorded (`not part.last_read_message`) or the recorded message's
`created_at` is strictly smaller than the new one.  The referenced cursor
message always exists in a consistent store (`on_delete=SET_NULL` clears
the reference otherwise); a dangling id is read back as the falsy `None`,
hence the `true` in that branch. -/
def markRead (s : Store) (convId uid msgId now : Nat) : Store × ReadResult :=
  match findMsgIn s msgId convId with
  | none => (s, ReadResult.invalidMessage)
  | some msg =>
    match findPart s convId uid with
    | none => (s, ReadResult.participantMissing)
    | some part =>
      let doUpdate : Bool :=
        match part.last_read_message with
        | none => true
        | some i =>
          match getMsg s i with
          | some prev => decide (prev.created_at < msg.created_at)
          | none => true
      if doUpdate then
        ({ s with participants :=
             updatePart s.participants convId uid (fun p =>
               { p with last_read_message := some msg.id, last_read_at := some now }) },
         ReadResult.ok (some msg.id))
      else (s, ReadResult.ok part.last_read_message)

/-- Insert a message into a list that is sorted by `created_at`
descending, keeping it sorted. -/
def insertDescBy (m : Msg) : List Msg → List Msg
  | [] => [m]
  | x :: xs =>
    if m.created_at ≤ x.created_at then x :: insertDescBy m xs else m :: x :: xs

/-- Ordering `order_by("-created_at")`. -/
def sortDesc (l : List Msg) : List Msg := l.foldr insertDescBy []

/-- Insert a message into a list that is sorted by `created_at`
ascending, keeping it sorted. -/
def insertAscBy (m : Msg) : List Msg → List Msg
  | [] => [m]
  | x :: xs =>
    if x.created_at ≤ m.created_at then x :: insertAscBy m xs else m :: x :: xs

/-- Ordering `order_by("created_at")`. -/
def sortAsc (l : List Msg) : List Msg := l.foldr insertAscBy []

/-- Response shape of `ConversationViewSet.messages`: the page and the
`next_before` cursor (`page[-1].created_at` rendered via `isoformat`, or
`None` for an empty page); the cursor is modelled as the timestamp itself. -/
structure Page where
  results : List Msg
  next_before : Option Nat
deriving DecidableEq, Repr

/-- Model of `ConversationViewSet.messages` (`chat/views.py`).  The base queryset is
the conversation's messages ordered by `-created_at`; a provided `before`
filters it to `created_at < before`; a provided `after` REPLACES the
queryset by the ascending `created_at > after` query; the page is the first
`limit` rows and `next_before` is the last row's `created_at`. -/
def listMessages (s : Store) (convId : Nat) (before after : Option Nat)
    (limit : Nat) : Page :=
  let qs0 := sortDesc (convMsgs s convId)
  let qs1 := match before with
    | some b => qs0.filter (fun m => decide (m.created_at < b))
    | none => qs0
  let qs2 := match after with
    | some a => sortAsc ((convMsgs s convId).filter (fun m => decide (a < m.created_at)))
    | none => qs1
  let page := qs2.take limit
  { results := page, next_before := page.getLast?.map (fun m => m.created_at) }

/-- The `last_msg_map` entry for one conversation in
`ConversationViewSet.list`: the first row of the conversation's messages
ordered by `-created_at`, i.e. its most recent message. -/
def lastMsgOf (s : Store) (convId : Nat) : Option Msg :=
  (sortDesc (convMsgs s convId)).head?

/-- The `unread` computation of `ConversationViewSet.list`
(`chat/views.py`): `0` unless the conversation has a last message and the
caller a participant row; else the total message count when
`last_read_message_id is None`, else the count of messages with
`created_at` strictly greater than the cursor message's `created_at`. -/
def unread_count (s : Store) (convId uid : Nat) : Nat :=
  match lastMsgOf s convId, findPart s convId uid with
  | some _, some part =>
    (match part.last_read_message with
     | none => (convMsgs s convId).length
     | some i =>
       match getMsg s i with
       | some prev =>
         ((convMsgs s convId).filter
           (fun m => decide (prev.created_at < m.created_at))).length
       | none => 0)
  | _, _ => 0

/-- The `isoformat()` rendering of a timestamp, modelled as the canonical
decimal rendering of the natural (injective, order-preserving on the wire
round-trip through the `before` query parameter). -/
def isoformat (t : Nat) : String := toString t

/-- The broadcast payload built by `ChatConsumer._serialize`
(`chat/consumers.py`): field-for-field the dict
`{"id": str(m.id), "conversation": m.conversation_id, "sender": m.sender_id,
"text": m.text, "created_at": m.created_at.isoformat()}`. -/
structure WireMessage where
  id : String
  conversation : Nat
  sender : Nat
  text : String
  created_at : String
deriving DecidableEq, Repr

/-- Model of `ChatConsumer._serialize`. -/
def serializeMsg (m : Msg) : WireMessage :=
  { id := toString m.id, conversation := m.conversation, sender := m.sender,
    text := m.text, created_at := isoformat m.created_at }

/-- Transport- and persistence-level actions a consumer handler can take,
in the order it takes them. -/
inductive Action where
  /-- the durable effect of `_create_msg`: insert the row and set the
  conversation's `last_message_at` to its `created_at`. -/
  | persist (m : Msg)
  /-- `channel_layer.group_send` of a `message.new` event. -/
  | broadcast (group : String) (payload : WireMessage)
  /-- `channel_layer.group_add`. -/
  | groupAdd (group : String)
  /-- `self.accept()`. -/
  | accept
  /-- `self.close(code=...)`. -/
  | close (code : Nat)
  /-- an exception escaping the handler. -/
  | raiseException
deriving DecidableEq, Repr

/-- Model of `ChatConsumer.connect` (`chat/consumers.py`): close 4001 when the scope
carries no verified user (absent or `AnonymousUser`, modelled as `none`);
close 4003 when the user is not a participant of the conversation in the
url route; otherwise `group_add` to `f"chat.{conversation_id}"` and accept. -/
def connect (s : Store) (scopeUser : Option Nat) (conversation_id : Nat) : List Action :=
  match scopeUser with
  | none => [Action.close 4001]
  | some uid =>
    if isMember s uid conversation_id then
      [Action.groupAdd ("chat." ++ toString conversation_id), Action.accept]
    else
      [Action.close 4003]

/-- An inbound websocket event as read by `receive_json`:
`content.get("type")` and `content.get("text")`. -/
structure RawEvent where
  type : String
  text : Option String
deriving DecidableEq, Repr

/-- Model of `ChatConsumer.receive_json` (`chat/consumers.py`) for a joined session
of user `uid` on conversation `conversation_id`.  `"message.send"`: strip
`content.get("text") or ""`; empty → plain return (no row, no broadcast,
no error); else `_create_msg` (insert row, set `last_message_at`), then
`group_send` of the serialized message.  `"read.update"` and every other
type: no-op.  Returns the store and the ordered action trace. -/
def receive_json (s : Store) (uid conversation_id : Nat) (ev : RawEvent)
    (now newId : Nat) : Store × List Action :=
  if ev.type = "message.send" then
    let text := pyStrip (ev.text.getD "")
    if text = "" then (s, [])
    else
      match findConv s conversation_id with
      | none => (s, [Action.raiseException])
      | some conv =>
        let m : Msg :=
          { id := newId, conversation := conv.id, sender := uid,
            text := text, created_at := now }
        ({ s with
            messages := s.messages ++ [m],
            conversations := touchConv s.conversations conv.id now },
         [Action.persist m,
          Action.broadcast ("chat." ++ toString conversation_id) (serializeMsg m)])
  else (s, [])

/-- A message of conversation 1 sent by user 1, with the given id and
timestamp (concrete data for witnesses and counterexamples). -/
def exMsg (i t : Nat) : Msg :=
  { id := i, conversation := 1, sender := 1, text := "hi", created_at := t }

/-- A concrete database: conversation 1 between users 1 and 2, three
messages at times 1, 2, 3; user 2 has read up to the message at time 2. -/
def exampleStore : Store :=
  { conversations :=
      [{ id := 1, direct_key := "1:2", created_by := 1, last_message_at := some 3 }],
    participants :=
      [{ conversation := 1, user := 1, last_read_message := none, last_read_at := none },
       { conversation := 1, user := 2, last_read_message := some 2, last_read_at := some 9 }],
    messages := [exMsg 1 1, exMsg 2 2, exMsg 3 3] }

/-- An empty database. -/
def emptyStore : Store :=
  { conversations := [], participants := [], messages := [] }

/-! ## Helper lemmas -/

theorem dropWhile_dropWhile (p : Char → Bool) (l : List Char) :
    List.dropWhile p (List.dropWhile p l) = List.dropWhile p l := by
  cases h : List.dropWhile p l with
  | nil => simp
  | cons x xs =>
    have hx : p x = false := by
      have hh := List.head?_dropWhile_not p l
      rw [h] at hh
      simpa using hh
    simp [List.dropWhile_cons, hx]

theorem exists_append_of_rstrip (p : Char → Bool) (l : List Char) :
    ∃ r, l = (List.dropWhile p l.reverse).reverse ++ r := by
  obtain ⟨t, ht⟩ := List.dropWhile_suffix (l := l.reverse) p
  refine ⟨t.reverse, ?_⟩
  have hrev := congrArg List.reverse ht
  simpa [List.reverse_append] using hrev.symm

theorem dropWhile_rstrip_dropWhile (p : Char → Bool) (l : List Char) :
    List.dropWhile p (List.dropWhile p (List.dropWhile p l).reverse).reverse
      = (List.dropWhile p (List.dropWhile p l).reverse).reverse := by
  obtain ⟨r, hr⟩ := exists_append_of_rstrip p (List.dropWhile p l)
  cases hX : (List.dropWhile p (List.dropWhile p l).reverse).reverse with
  | nil => simp
  | cons c cs =>
    have hAc : List.dropWhile p l = c :: (cs ++ r) := by
      rw [hr, hX]; simp
    have hpc : p c = false := by
      have hh := List.head?_dropWhile_not p l
      rw [hAc] at hh
      simpa using hh
    simp [List.dropWhile_cons, hpc]

theorem stripChars_idem (l : List Char) : stripChars (stripChars l) = stripChars l := by
  unfold stripChars
  rw [dropWhile_rstrip_dropWhile, List.reverse_reverse]
  exact dropWhile_rstrip_dropWhile Char.isWhitespace l

theorem pyStrip_idem (s : String) : pyStrip (pyStrip s) = pyStrip s :=
  congrArg String.mk (stripChars_idem s.data)

theorem charListLt_asymm : ∀ {a b : List Char},
    charListLt a b = true → charListLt b a = false
  | _, [], h => by simp [charListLt] at h
  | [], _ :: _, _ => rfl
  | a :: as, b :: bs, h => by
    by_cases hab : a < b
    · have hba : ¬ b < a := asymm hab
      simp [charListLt, hab, hba]
    · by_cases hba : b < a
      · simp [charListLt, hab, hba] at h
      · have ih := charListLt_asymm (a := as) (b := bs)
        simp [charListLt, hab, hba] at h ⊢
        exact ih h

theorem charListLt_eq_of_both_false : ∀ {a b : List Char},
    charListLt a b = false → charListLt b a = false → a = b
  | [], [], _, _ => rfl
  | [], _ :: _, h, _ => by simp [charListLt] at h
  | _ :: _, [], _, h => by simp [charListLt] at h
  | a :: as, b :: bs, h1, h2 => by
    by_cases hab : a < b
    · simp [charListLt, hab] at h1
    · by_cases hba : b < a
      · simp [charListLt, hba] at h2
      · have hhd : a = b := le_antisymm (not_lt.mp hba) (not_lt.mp hab)
        simp [charListLt, hab, hba] at h1 h2
        exact by rw [hhd, charListLt_eq_of_both_false h1 h2]

theorem strLt_asymm {a b : String} (h : strLt a b = true) : strLt b a = false :=
  charListLt_asymm h

theorem strLt_eq_of_both_false {a b : String} (h1 : strLt a b = false)
    (h2 : strLt b a = false) : a = b := by
  cases a; cases b
  exact congrArg String.mk (charListLt_eq_of_both_false h1 h2)

theorem make_direct_key_symm (a b : Nat) :
    make_direct_key a b = make_direct_key b a := by
  unfold make_direct_key
  by_cases h1 : strLt (toString b) (toString a) = true
  · have h2 := strLt_asymm h1
    simp [h1, h2]
  · by_cases h2 : strLt (toString a) (toString b) = true
    · simp [h1, h2]
    · have heq := strLt_eq_of_both_false (Bool.eq_false_iff.mpr h2)
        (Bool.eq_false_iff.mpr h1)
      simp [h1, h2, heq]

theorem mem_insertDescBy {m y : Msg} : ∀ {l : List Msg},
    y ∈ insertDescBy m l ↔ y = m ∨ y ∈ l
  | [] => by simp [insertDescBy]
  | x :: xs => by
    by_cases h : m.created_at ≤ x.created_at
    · simp [insertDescBy, h, mem_insertDescBy (l := xs)]
      tauto
    · simp [insertDescBy, h]

theorem mem_sortDesc {y : Msg} : ∀ {l : List Msg}, y ∈ sortDesc l ↔ y ∈ l
  | [] => by simp [sortDesc]
  | x :: xs => by
    have ih := mem_sortDesc (y := y) (l := xs)
    simp [sortDesc, List.foldr] at ih ⊢
    rw [mem_insertDescBy, ih]

theorem mem_insertAscBy {m y : Msg} : ∀ {l : List Msg},
    y ∈ insertAscBy m l ↔ y = m ∨ y ∈ l
  | [] => by simp [insertAscBy]
  | x :: xs => by
    by_cases h : x.created_at ≤ m.created_at
    · simp [insertAscBy, h, mem_insertAscBy (l := xs)]
      tauto
    · simp [insertAscBy, h]

theorem mem_sortAsc {y : Msg} : ∀ {l : List Msg}, y ∈ sortAsc l ↔ y ∈ l
  | [] => by simp [sortAsc]
  | x :: xs => by
    have ih := mem_sortAsc (y := y) (l := xs)
    simp [sortAsc, List.foldr] at ih ⊢
    rw [mem_insertAscBy, ih]

theorem pairwise_insertDescBy {m : Msg} : ∀ {l : List Msg},
    l.Pairwise (fun a b => b.created_at ≤ a.created_at) →
    (insertDescBy m l).Pairwise (fun a b => b.created_at ≤ a.created_at)
  | [], _ => by simp [insertDescBy]
  | x :: xs, h => by
    rw [List.pairwise_cons] at h
    by_cases hle : m.created_at ≤ x.created_at
    · rw [insertDescBy, if_pos hle, List.pairwise_cons]
      refine ⟨fun y hy => ?_, pairwise_insertDescBy h.2⟩
      rcases mem_insertDescBy.mp hy with rfl | hy'
      · exact hle
      · exact h.1 y hy'
    · rw [insertDescBy, if_neg hle, List.pairwise_cons]
      refine ⟨fun y hy => ?_, List.pairwise_cons.mpr h⟩
      rcases List.mem_cons.mp hy with rfl | hy'
      · exact le_of_lt (not_le.mp hle)
      · exact le_trans (h.1 y hy') (le_of_lt (not_le.mp hle))

theorem pairwise_sortDesc : ∀ (l : List Msg),
    (sortDesc l).Pairwise (fun a b => b.created_at ≤ a.created_at)
  | [] => by simp [sortDesc]
  | x :: xs => by
    have ih := pairwise_sortDesc xs
    simpa [sortDesc, List.foldr] using pairwise_insertDescBy ih

theorem pairwise_insertAscBy {m : Msg} : ∀ {l : List Msg},
    l.Pairwise (fun a b => a.created_at ≤ b.created_at) →
    (insertAscBy m l).Pairwise (fun a b => a.created_at ≤ b.created_at)
  | [], _ => by simp [insertAscBy]
  | x :: xs, h => by
    rw [List.pairwise_cons] at h
    by_cases hle : x.created_at ≤ m.created_at
    · rw [insertAscBy, if_pos hle, List.pairwise_cons]
      refine ⟨fun y hy => ?_, pairwise_insertAscBy h.2⟩
      rcases mem_insertAscBy.mp hy with rfl | hy'
      · exact hle
      · exact h.1 y hy'
    · rw [insertAscBy, if_neg hle, List.pairwise_cons]
      refine ⟨fun y hy => ?_, List.pairwise_cons.mpr h⟩
      rcases List.mem_cons.mp hy with rfl | hy'
      · exact le_of_lt (not_le.mp hle)
      · exact le_trans (le_of_lt (not_le.mp hle)) (h.1 y hy')

theorem pairwise_sortAsc : ∀ (l : List Msg),
    (sortAsc l).Pairwise (fun a b => a.created_at ≤ b.created_at)
  | [] => by simp [sortAsc]
  | x :: xs => by
    have ih := pairwise_sortAsc xs
    simpa [sortAsc, List.foldr] using pairwise_insertAscBy ih

theorem length_insertDescBy {m : Msg} : ∀ {l : List Msg},
    (insertDescBy m l).length = l.length + 1
  | [] => rfl
  | x :: xs => by
    by_cases h : m.created_at ≤ x.created_at
    · simp [insertDescBy, h, length_insertDescBy (l := xs)]
    · simp [insertDescBy, h]

theorem length_sortDesc : ∀ (l : List Msg), (sortDesc l).length = l.length
  | [] => rfl
  | x :: xs => by
    have ih := length_sortDesc xs
    simp [sortDesc, List.foldr] at ih ⊢
    rw [length_insertDescBy, ih]

theorem sortDesc_eq_nil_iff {l : List Msg} : sortDesc l = [] ↔ l = [] := by
  constructor
  · intro h
    have := length_sortDesc l
    rw [h] at this
    exact List.length_eq_zero.mp this.symm
  · intro h; rw [h]; rfl

/-- In a list sorted by `created_at` descending, the final element is a
minimum of the list. -/
theorem getLast?_min_of_pairwiseDesc : ∀ {l : List Msg} {x : Msg},
    l.Pairwise (fun a b => b.created_at ≤ a.created_at) →
    l.getLast? = some x → x ∈ l ∧ ∀ y ∈ l, x.created_at ≤ y.created_at
  | [], _, _, hx => by simp at hx
  | [a], x, _, hx => by
    simp at hx
    subst hx
    exact ⟨List.mem_singleton_self a, by simp⟩
  | a :: b :: t, x, h, hx => by
    rw [List.getLast?_cons_cons] at hx
    rw [List.pairwise_cons] at h
    obtain ⟨hmem, hmin⟩ := getLast?_min_of_pairwiseDesc h.2 hx
    refine ⟨List.mem_cons_of_mem a hmem, fun y hy => ?_⟩
    rcases List.mem_cons.mp hy with rfl | hy'
    · exact h.1 x hmem
    · exact hmin y hy'

/-- With pairwise-distinct keys, the filter for the key of a member has
exactly one element. -/
theorem filter_key_length_one {l : List Conv} {c : Conv} {k : String}
    (hn : (l.map Conv.direct_key).Nodup) (hc : c ∈ l) (hk : c.direct_key = k) :
    (l.filter (fun y => decide (y.direct_key = k))).length = 1 := by
  induction l with
  | nil => simp at hc
  | cons h t ih =>
    rw [List.map_cons, List.nodup_cons] at hn
    rcases List.mem_cons.mp hc with rfl | hct
    · have ht : t.filter (fun y => decide (y.direct_key = k)) = [] := by
        rw [List.filter_eq_nil_iff]
        intro y hy
        simp only [decide_eq_true_eq]
        intro hyk
        have hmem : y.direct_key ∈ List.map Conv.direct_key t :=
          List.mem_map_of_mem Conv.direct_key hy
        rw [hyk, ← hk] at hmem
        exact hn.1 hmem
      simp [List.filter_cons, hk, ht]
    · have hhk : h.direct_key ≠ k := by
        intro hhk
        exact hn.1 (hhk ▸ hk ▸ List.mem_map_of_mem Conv.direct_key hct)
      simp [List.filter_cons, hhk]
      exact ih hn.2 hct

/-- Searching by `find?` for a key that is unique in the list returns the member holding
it. -/
theorem find?_eq_some_of_nodup_map {α β : Type} [DecidableEq β] {f : α → β}
    {l : List α} {m : α} (hn : (l.map f).Nodup) (hm : m ∈ l) :
    l.find? (fun x => decide (f x = f m)) = some m := by
  induction l with
  | nil => simp at hm
  | cons h t ih =>
    rw [List.map_cons, List.nodup_cons] at hn
    rcases List.mem_cons.mp hm with rfl | hmt
    · simp [List.find?_cons]
    · have hne : f h ≠ f m := by
        intro he
        exact hn.1 (he ▸ List.mem_map_of_mem f hmt)
      simp [List.find?_cons, hne]
      exact ih hn.2 hmt

/-! ## Claims -/

/-- C5: at the realtime handshake, a connection carrying no verified user
identity is closed with the unauthenticated code 4001; an identified user
who is not a participant of the conversation named in the connection path
is closed with the forbidden code 4003; otherwise the session is added to
the registry group of that conversation and the connection is accepted. -/
theorem c5_connect_handshake (s : Store) (u : Option Nat) (cid : Nat) :
    (u = none → connect s u cid = [Action.close 4001])
    ∧ (∀ uid, u = some uid → isMember s uid cid = false →
        connect s u cid = [Action.close 4003])
    ∧ (∀ uid, u = some uid → isMember s uid cid = true →
        connect s u cid = [Action.groupAdd ("chat." ++ toString cid), Action.accept]) := by
  refine ⟨?_, ?_, ?_⟩
  · rintro rfl; rfl
  · rintro uid rfl hm
    simp [connect, hm]
  · rintro uid rfl hm
    simp [connect, hm]

/-- Concrete instantiation of the handshake theorem on `exampleStore`. -/
theorem c5_connect_handshake_witness :
    connect exampleStore none 1 = [Action.close 4001]
    ∧ connect exampleStore (some 3) 1 = [Action.close 4003]
    ∧ connect exampleStore (some 1) 1
        = [Action.groupAdd ("chat." ++ toString 1), Action.accept] :=
  ⟨(c5_connect_handshake exampleStore none 1).1 rfl,
   (c5_connect_handshake exampleStore (some 3) 1).2.1 3 rfl (by decide),
   (c5_connect_handshake exampleStore (some 1) 1).2.2 1 rfl (by decide)⟩

/-- C9: every inbound realtime event whose type is not `"message.send"`
(`"read.update"` and any unrecognized type included) is a no-op: the store
is unchanged and no action of any kind is taken — nothing persisted,
nothing broadcast, no close, no exception. -/
theorem c9_non_send_noop (s : Store) (uid cid now newId : Nat) (ev : RawEvent)
    (h : ev.type ≠ "message.send") :
    receive_json s uid cid ev now newId = (s, []) := by
  unfold receive_json
  rw [if_neg h]

/-- Concrete instantiation of the no-op theorem on the reserved
`read.update` type and an unknown type. -/
theorem c9_non_send_noop_witness :
    receive_json exampleStore 1 1 { type := "read.update", text := none } 7 99
      = (exampleStore, [])
    ∧ receive_json exampleStore 1 1 { type := "something.else", text := some "hi" } 7 99
      = (exampleStore, []) :=
  ⟨c9_non_send_noop exampleStore 1 1 7 99 { type := "read.update", text := none }
     (by decide),
   c9_non_send_noop exampleStore 1 1 7 99 { type := "something.else", text := some "hi" }
     (by decide)⟩

/-- C10: the self-chat guard compares raw strings, so it is bypassed by any
non-canonical decimal rendering of the caller's own id.  For caller 5,
`peer_id = "5"` is rejected, but `peer_id = "05"` passes validation
(`"5" != "05"`), resolves to user 5 through the integer primary-key
coercion, and creates a self-conversation with `direct_key = "5:5"` and a
participant row pairing user 5 with itself. -/
theorem c10_self_chat_guard_bypassed :
    direct emptyStore [5] 5 "5" 1
      = Except.error (ApiError.validation "Cannot start a chat with yourself.")
    ∧ direct emptyStore [5] 5 "05" 1
      = Except.ok ((⟨[⟨1, "5:5", 5, none⟩], [⟨1, 5, none, none⟩], []⟩ : Store),
                   (⟨1, "5:5", 5, none⟩ : Conv), true) := by
  constructor <;> decide

/-- C2 counterexample: on the realtime path an empty-after-trim
`message.send` is silently dropped — the handler returns with the store
unchanged and an empty action trace, i.e. no error of any kind is surfaced
(and nothing is persisted or broadcast), where the claim asserts an
`InvalidInput` failure on this path. -/
theorem c2_realtime_empty_text_counterexample :
    receive_json exampleStore 1 1 { type := "message.send", text := some "   " } 7 99
      = (exampleStore, []) := by
  decide

/-- C2 (amended): REST `send` rejects empty-after-trim text with a
validation error and creates no row; the realtime path silently drops such
an event (no row, no broadcast, no error); and on both paths every stored
message row has text that is non-empty after trimming. -/
theorem c2_empty_text_never_stored (s : Store) (uid cid now newId : Nat)
    (text : String) (ev : RawEvent) (h : pyStrip text = "")
    (hty : ev.type = "message.send") (htx : ev.text = some text) :
    send s uid cid text now newId
      = Except.error (ApiError.validation "Message text cannot be empty.")
    ∧ receive_json s uid cid ev now newId = (s, [])
    ∧ (∀ t now2 id2 s2 m2, send s uid cid t now2 id2 = Except.ok (s2, m2) →
        pyStrip m2.text ≠ "")
    ∧ (∀ ev2 now2 id2, ∀ m2 ∈ (receive_json s uid cid ev2 now2 id2).1.messages,
        m2 ∈ s.messages ∨ pyStrip m2.text ≠ "") := by
  refine ⟨?_, ?_, ?_, ?_⟩
  · unfold send
    rw [if_pos h]
  · unfold receive_json
    rw [if_pos hty]
    simp only [htx, Option.getD_some, h, if_pos]
  · intro t now2 id2 s2 m2 hok
    unfold send at hok
    by_cases hp : pyStrip t = ""
    · rw [if_pos hp] at hok
      exact absurd hok (by simp)
    · rw [if_neg hp] at hok
      have hm2 : m2 = Msg.mk id2 cid uid (pyStrip t) now2 := by
        have := hok
        simp at this
        exact this.2.symm
      rw [hm2]
      simpa [pyStrip_idem] using hp
  · intro ev2 now2 id2 m2 hm2
    by_cases hty2 : ev2.type = "message.send"
    · by_cases hemp : pyStrip (ev2.text.getD "") = ""
      · unfold receive_json at hm2
        rw [if_pos hty2, if_pos hemp] at hm2
        exact Or.inl hm2
      · cases hfc : findConv s cid with
        | none =>
          unfold receive_json at hm2
          rw [if_pos hty2, if_neg hemp, hfc] at hm2
          exact Or.inl hm2
        | some conv =>
          unfold receive_json at hm2
          rw [if_pos hty2, if_neg hemp, hfc] at hm2
          simp only [List.mem_append, List.mem_singleton] at hm2
          rcases hm2 with hm2 | rfl
          · exact Or.inl hm2
          · exact Or.inr (by simpa [pyStrip_idem] using hemp)
    · unfold receive_json at hm2
      rw [if_neg hty2] at hm2
      exact Or.inl hm2

/-- Concrete instantiation of the empty-text theorem at whitespace text. -/
theorem c2_empty_text_never_stored_witness :
    send exampleStore 1 1 "   " 7 99
      = Except.error (ApiError.validation "Message text cannot be empty.") :=
  (c2_empty_text_never_stored exampleStore 1 1 7 99 "   "
    { type := "message.send", text := some "   " } (by decide) rfl rfl).1

/-- C6: handling a non-empty `message.send` on a joined session performs
exactly the durable effect (one message row appended, carrying the trimmed
text and `created_at = now`, with the conversation's `last_message_at` set
to that same `created_at`) followed by exactly the ephemeral effect (one
`message.new` broadcast to the conversation's group whose payload carries
the message's id, conversation id, sender id, text and `created_at` as
rendered primitives) — persistence first, broadcast second, nothing else. -/
theorem c6_send_persist_then_broadcast (s : Store) (uid cid now newId : Nat)
    (ev : RawEvent) (conv : Conv) (hty : ev.type = "message.send")
    (htx : pyStrip (ev.text.getD "") ≠ "") (hconv : findConv s cid = some conv) :
    receive_json s uid cid ev now newId
      = ({ s with
            messages := s.messages ++ [Msg.mk newId cid uid (pyStrip (ev.text.getD "")) now],
            conversations := touchConv s.conversations cid now },
         [Action.persist (Msg.mk newId cid uid (pyStrip (ev.text.getD "")) now),
          Action.broadcast ("chat." ++ toString cid)
            (serializeMsg (Msg.mk newId cid uid (pyStrip (ev.text.getD "")) now))])
    ∧ (∀ c ∈ touchConv s.conversations cid now, c.id = cid →
        c.last_message_at = some now)
    ∧ serializeMsg (Msg.mk newId cid uid (pyStrip (ev.text.getD "")) now)
        = WireMessage.mk (toString newId) cid uid (pyStrip (ev.text.getD ""))
            (isoformat now) := by
  have hcid : conv.id = cid := by
    have hs := List.find?_some hconv
    simpa using hs
  refine ⟨?_, ?_, rfl⟩
  · unfold receive_json
    rw [if_pos hty]
    simp only [htx, if_neg, hconv, hcid]
    simp
  · intro c hc hid
    unfold touchConv at hc
    rcases List.mem_map.mp hc with ⟨x, hx, rfl⟩
    by_cases hxc : x.id = cid
    · rw [if_pos hxc]
    · rw [if_neg hxc] at hid ⊢
      exact absurd hid hxc

/-- Concrete instantiation of the send-effects theorem on `exampleStore`. -/
theorem c6_send_persist_then_broadcast_witness :
    receive_json exampleStore 1 1 { type := "message.send", text := some " hi " } 7 99
      = ({ exampleStore with
            messages := exampleStore.messages ++ [Msg.mk 99 1 1 (pyStrip " hi ") 7],
            conversations := touchConv exampleStore.conversations 1 7 },
         [Action.persist (Msg.mk 99 1 1 (pyStrip " hi ") 7),
          Action.broadcast ("chat." ++ toString 1)
            (serializeMsg (Msg.mk 99 1 1 (pyStrip " hi ") 7))]) :=
  (c6_send_persist_then_broadcast exampleStore 1 1 7 99
    { type := "message.send", text := some " hi " }
    (Conv.mk 1 "1:2" 1 (some 3)) rfl (by decide) (by decide)).1

/-- C7: for a user with a participant row in a conversation, the unread
count computed by the conversation-list action equals the total number of
messages of that conversation when no `last_read_message` is recorded, and
otherwise the number of messages whose `created_at` is strictly greater
than the recorded message's `created_at`. -/
theorem c7_unread_count (s : Store) (c u : Nat) (part : Participant)
    (hpart : findPart s c u = some part) :
    (part.last_read_message = none →
      unread_count s c u = (convMsgs s c).length)
    ∧ (∀ i prev, part.last_read_message = some i → getMsg s i = some prev →
        unread_count s c u =
          ((convMsgs s c).filter
            (fun m => decide (prev.created_at < m.created_at))).length) := by
  cases hlm : lastMsgOf s c with
  | none =>
    have hnil : convMsgs s c = [] := by
      have h1 : sortDesc (convMsgs s c) = [] := by
        have := hlm
        unfold lastMsgOf at this
        exact List.head?_eq_none_iff.mp this
      exact sortDesc_eq_nil_iff.mp h1
    constructor
    · intro h0
      simp [unread_count, hlm, hnil]
    · intro i prev hi hprev
      simp [unread_count, hlm, hnil]
  | some lm =>
    constructor
    · intro h0
      simp [unread_count, hlm, hpart, h0]
    · intro i prev hi hprev
      simp [unread_count, hlm, hpart, hi, hprev]

/-- Concrete instantiation of the unread-count theorem: user 1 of
`exampleStore` has no cursor (3 unread of 3 messages), user 2 has read the
message at time 2 (1 unread). -/
theorem c7_unread_count_witness :
    unread_count exampleStore 1 1 = (convMsgs exampleStore 1).length
    ∧ unread_count exampleStore 1 2
        = ((convMsgs exampleStore 1).filter
            (fun m => decide ((exMsg 2 2).created_at < m.created_at))).length :=
  ⟨(c7_unread_count exampleStore 1 1 (Participant.mk 1 1 none none) (by decide)).1 rfl,
   (c7_unread_count exampleStore 1 2 (Participant.mk 1 2 (some 2) (some 9))
      (by decide)).2 2 (exMsg 2 2) rfl (by decide)⟩

/-- C4 counterexample: with `before = 3` and `after = 1` supplied together
on `exampleStore` (messages at times 1, 2, 3), the page is the ascending
`after` page `[2, 3]` — not the descending `before` page `[2, 1]` that
before-precedence would produce — so `before` does not take precedence and
`after` is not ignored. -/
theorem c4_before_precedence_counterexample :
    (listMessages exampleStore 1 (some 3) (some 1) 50).results.map Msg.created_at
      = [2, 3]
    ∧ (listMessages exampleStore 1 (some 3) none 50).results.map Msg.created_at
      = [2, 1]
    ∧ listMessages exampleStore 1 (some 3) (some 1) 50
      ≠ listMessages exampleStore 1 (some 3) none 50 := by
  refine ⟨by decide, by decide, by decide⟩

/-- C4 (amended): when both `before` and `after` are supplied, `after`
takes precedence — the call behaves exactly as if `before` were absent, and
the returned page is ascending by `created_at`, restricted to this
conversation's messages strictly newer than `after`. -/
theorem c4_after_takes_precedence (s : Store) (c b a lim : Nat) :
    listMessages s c (some b) (some a) lim = listMessages s c none (some a) lim
    ∧ (∀ m ∈ (listMessages s c (some b) (some a) lim).results,
        a < m.created_at ∧ m.conversation = c)
    ∧ (listMessages s c (some b) (some a) lim).results.Pairwise
        (fun x y => x.created_at ≤ y.created_at) := by
  refine ⟨rfl, ?_, ?_⟩
  · intro m hm
    have hm1 : m ∈ sortAsc ((convMsgs s c).filter
        (fun m => decide (a < m.created_at))) := List.take_subset _ _ hm
    have hm2 := mem_sortAsc.mp hm1
    rcases List.mem_filter.mp hm2 with ⟨hm3, ha⟩
    rcases List.mem_filter.mp hm3 with ⟨_, hc⟩
    exact ⟨by simpa using ha, by simpa using hc⟩
  · exact List.Pairwise.sublist (List.take_sublist _ _) (pairwise_sortAsc _)

/-- Concrete instantiation of the precedence theorem on `exampleStore`. -/
theorem c4_after_takes_precedence_witness :
    listMessages exampleStore 1 (some 3) (some 1) 50
      = listMessages exampleStore 1 none (some 1) 50 :=
  (c4_after_takes_precedence exampleStore 1 3 1 50).1

/-- C8 counterexample: paging forward with `after = 0` on `exampleStore`
returns the ascending page `[1, 2, 3]`, whose oldest message has
`created_at = 1`, yet `next_before` is `3` (the page's last — here newest —
element), so `next_before` is not the oldest message's timestamp on every
call. -/
theorem c8_next_before_counterexample :
    (listMessages exampleStore 1 none (some 0) 50).results.map Msg.created_at
      = [1, 2, 3]
    ∧ (listMessages exampleStore 1 none (some 0) 50).next_before = some 3
    ∧ (listMessages exampleStore 1 none (some 0) 50).next_before ≠ some 1 := by
  refine ⟨by decide, by decide, by decide⟩

/-- C8 (amended): on every call that does not supply `after` (the backward
paging contract), `next_before` is null exactly when the page is empty, and
otherwise equals the `created_at` of the oldest message of the page; and
when paging with `before`, the returned cursor is strictly smaller than the
`before` passed, so successive backward cursors strictly decrease and never
repeat. -/
theorem c8_next_before_cursor (s : Store) (c lim : Nat) (before : Option Nat) :
    ((listMessages s c before none lim).next_before = none
      ↔ (listMessages s c before none lim).results = [])
    ∧ (∀ t, (listMessages s c before none lim).next_before = some t →
        (∃ m ∈ (listMessages s c before none lim).results, m.created_at = t)
        ∧ ∀ m ∈ (listMessages s c before none lim).results, t ≤ m.created_at)
    ∧ (∀ b t, before = some b →
        (listMessages s c before none lim).next_before = some t → t < b) := by
  have hnb : (listMessages s c before none lim).next_before
      = ((listMessages s c before none lim).results).getLast?.map
          (fun m => m.created_at) := by
    cases before <;> rfl
  have hpw : (listMessages s c before none lim).results.Pairwise
      (fun x y => y.created_at ≤ x.created_at) := by
    cases before with
    | none =>
      exact List.Pairwise.sublist (List.take_sublist _ _) (pairwise_sortDesc _)
    | some b0 =>
      exact List.Pairwise.sublist (List.take_sublist _ _)
        (List.Pairwise.filter _ (pairwise_sortDesc _))
  refine ⟨?_, ?_, ?_⟩
  · rw [hnb, Option.map_eq_none', List.getLast?_eq_none_iff]
  · intro t ht
    rw [hnb, Option.map_eq_some'] at ht
    obtain ⟨x, hx, rfl⟩ := ht
    obtain ⟨hmem, hmin⟩ := getLast?_min_of_pairwiseDesc hpw hx
    exact ⟨⟨x, hmem, rfl⟩, hmin⟩
  · intro b t hb ht
    subst hb
    rw [hnb, Option.map_eq_some'] at ht
    obtain ⟨x, hx, rfl⟩ := ht
    obtain ⟨hmem, _⟩ := getLast?_min_of_pairwiseDesc hpw hx
    have hx2 : x ∈ (sortDesc (convMsgs s c)).filter
        (fun m => decide (m.created_at < b)) := List.take_subset _ _ hmem
    have hlt := (List.mem_filter.mp hx2).2
    simpa using hlt

/-- Concrete instantiation of the cursor theorem: paging `exampleStore`
with `before = 3` yields `next_before = 1 < 3`. -/
theorem ensureParticipants_conversations (s : Store) (conv : Conv) (x y : Nat) :
    (ensureParticipants s conv x y).conversations = s.conversations := rfl

theorem getOrCreateDirect_found {s : Store} {a b : Nat} {conv : Conv} (n : Nat)
    (hfind : s.conversations.find?
        (fun c => decide (c.direct_key = make_direct_key a b)) = some conv) :
    getOrCreateDirect s a b n = (ensureParticipants s conv a b, conv, false) := by
  simp only [getOrCreateDirect]
  rw [hfind]

theorem getOrCreateDirect_not_found {s : Store} {a b : Nat} (n : Nat)
    (hfind : s.conversations.find?
        (fun c => decide (c.direct_key = make_direct_key a b)) = none) :
    getOrCreateDirect s a b n =
      (ensureParticipants
        { s with conversations :=
            s.conversations ++ [Conv.mk n (make_direct_key a b) a none] }
        (Conv.mk n (make_direct_key a b) a none) a b,
       Conv.mk n (make_direct_key a b) a none, true) := by
  simp only [getOrCreateDirect]
  rw [hfind]

/-- C1: the direct key is order-independent, so `get_or_create_direct`
called with the two ids in either order resolves to the same conversation
row: after a first call for `(a, b)`, a call for `(b, a)` finds (does not
create) the very conversation of the first call and leaves the conversation
table unchanged; and when the `direct_key` column starts pairwise-distinct
(the unique constraint), it stays pairwise-distinct and exactly one stored
conversation carries the pair's key. -/
theorem c1_direct_key_unordered_pair (s : Store) (a b n1 n2 : Nat) (hab : a ≠ b)
    (hnodup : (s.conversations.map Conv.direct_key).Nodup) :
    make_direct_key a b = make_direct_key b a
    ∧ (getOrCreateDirect (getOrCreateDirect s a b n1).1 b a n2).2.1
        = (getOrCreateDirect s a b n1).2.1
    ∧ (getOrCreateDirect (getOrCreateDirect s a b n1).1 b a n2).2.2 = false
    ∧ (getOrCreateDirect (getOrCreateDirect s a b n1).1 b a n2).1.conversations
        = (getOrCreateDirect s a b n1).1.conversations
    ∧ ((getOrCreateDirect s a b n1).1.conversations.filter
        (fun c => decide (c.direct_key = make_direct_key a b))).length = 1
    ∧ ((getOrCreateDirect s a b n1).1.conversations.map Conv.direct_key).Nodup := by
  have hsym := make_direct_key_symm a b
  cases hfind : s.conversations.find?
      (fun c => decide (c.direct_key = make_direct_key a b)) with
  | some conv =>
    have h1 := getOrCreateDirect_found (n := n1) hfind
    have hconvs1 : (getOrCreateDirect s a b n1).1.conversations = s.conversations := by
      rw [h1]
      exact ensureParticipants_conversations _ _ _ _
    have hfind2 : (getOrCreateDirect s a b n1).1.conversations.find?
        (fun c => decide (c.direct_key = make_direct_key b a)) = some conv := by
      rw [hconvs1, ← hsym]
      exact hfind
    have h2 := getOrCreateDirect_found (n := n2) hfind2
    have hkey : conv.direct_key = make_direct_key a b := by
      have hs := List.find?_some hfind
      simpa using hs
    refine ⟨hsym, ?_, ?_, ?_, ?_, ?_⟩
    · rw [h2, h1]
    · rw [h2]
    · rw [h2]
      exact ensureParticipants_conversations _ _ _ _
    · rw [hconvs1]
      exact filter_key_length_one hnodup (List.mem_of_find?_eq_some hfind) hkey
    · rw [hconvs1]
      exact hnodup
  | none =>
    have h1 := getOrCreateDirect_not_found (n := n1) hfind
    have hconvs1 : (getOrCreateDirect s a b n1).1.conversations
        = s.conversations ++ [Conv.mk n1 (make_direct_key a b) a none] := by
      rw [h1]
      exact ensureParticipants_conversations _ _ _ _
    have hnotmem : ∀ x ∈ s.conversations, x.direct_key ≠ make_direct_key a b := by
      intro x hx
      have hno := List.find?_eq_none.mp hfind x hx
      simpa using hno
    have hfind2 : (getOrCreateDirect s a b n1).1.conversations.find?
        (fun c => decide (c.direct_key = make_direct_key b a))
        = some (Conv.mk n1 (make_direct_key a b) a none) := by
      rw [hconvs1, ← hsym, List.find?_append, hfind]
      simp
    have h2 := getOrCreateDirect_found (n := n2) hfind2
    refine ⟨hsym, ?_, ?_, ?_, ?_, ?_⟩
    · rw [h2, h1]
    · rw [h2]
    · rw [h2]
      exact ensureParticipants_conversations _ _ _ _
    · rw [hconvs1, List.filter_append]
      have hf1 : s.conversations.filter
          (fun c => decide (c.direct_key = make_direct_key a b)) = [] := by
        rw [List.filter_eq_nil_iff]
        intro x hx
        simpa using hnotmem x hx
      rw [hf1]
      simp
    · rw [hconvs1, List.map_append, List.nodup_append]
      refine ⟨hnodup, by simp, ?_⟩
      intro k hk hk2
      rcases List.mem_map.mp hk with ⟨x, hx, rfl⟩
      simp only [List.map_cons, List.map_nil, List.mem_singleton] at hk2
      exact hnotmem x hx hk2

/-- Concrete instantiation of the direct-key theorem: users 1 and 2 on an
empty database. -/
theorem c1_direct_key_unordered_pair_witness :
    make_direct_key 1 2 = make_direct_key 2 1
    ∧ (getOrCreateDirect (getOrCreateDirect emptyStore 1 2 1).1 2 1 2).2.2 = false :=
  ⟨(c1_direct_key_unordered_pair emptyStore 1 2 1 2 (by decide) (by decide)).1,
   (c1_direct_key_unordered_pair emptyStore 1 2 1 2 (by decide) (by decide)).2.2.1⟩

theorem markRead_eq (s : Store) (cId uId msgId now : Nat)
    (part : Participant) (msg : Msg)
    (hpart : findPart s cId uId = some part)
    (hmsg : findMsgIn s msgId cId = some msg) :
    markRead s cId uId msgId now =
      (if (match part.last_read_message with
           | none => true
           | some i =>
             match getMsg s i with
             | some prev => decide (prev.created_at < msg.created_at)
             | none => true)
       then ({ s with participants := updatePart s.participants cId uId (fun p =>
                { p with last_read_message := some msg.id, last_read_at := some now }) },
             ReadResult.ok (some msg.id))
       else (s, ReadResult.ok part.last_read_message)) := by
  unfold markRead findPart findMsgIn at *
  rw [hmsg, hpart]

theorem find?_updatePart {parts : List Participant} {convId uid : Nat}
    {part : Participant} (f : Participant → Participant)
    (hf : ∀ p, (f p).conversation = p.conversation ∧ (f p).user = p.user)
    (h : parts.find? (fun p => decide (p.conversation = convId ∧ p.user = uid))
          = some part) :
    (updatePart parts convId uid f).find?
        (fun p => decide (p.conversation = convId ∧ p.user = uid))
      = some (f part) := by
  unfold updatePart
  rw [List.find?_map]
  have hq : ((fun p : Participant => decide (p.conversation = convId ∧ p.user = uid)) ∘
      (fun p => if p.conversation = convId ∧ p.user = uid then f p else p))
      = (fun p : Participant => decide (p.conversation = convId ∧ p.user = uid)) := by
    funext p
    by_cases hp : p.conversation = convId ∧ p.user = uid
    · simp [hp, (hf p).1, (hf p).2]
    · simp only [Function.comp_apply, if_neg hp]
  rw [hq, h]
  have hp : part.conversation = convId ∧ part.user = uid := by
    have hs := List.find?_some h
    simpa using hs
  simp [hp]

/-- C3: `mark_read` is monotonic and idempotent.  With a recorded cursor
whose message's `created_at` is not strictly smaller than the target
message's, the call is a no-op that still returns success with the old
cursor; with no recorded cursor the cursor is advanced to the target
message; and (for a store with unique message ids) calling twice with the
same message leaves the store exactly as after the first call. -/
theorem c3_mark_read_monotonic (s : Store) (cId uId msgId now : Nat)
    (part : Participant) (msg : Msg)
    (hpart : findPart s cId uId = some part)
    (hmsg : findMsgIn s msgId cId = some msg) :
    (∀ i prev, part.last_read_message = some i → getMsg s i = some prev →
       msg.created_at ≤ prev.created_at →
       markRead s cId uId msgId now = (s, ReadResult.ok (some i)))
    ∧ (part.last_read_message = none →
       markRead s cId uId msgId now =
         ({ s with participants := updatePart s.participants cId uId (fun p =>
              { p with last_read_message := some msg.id, last_read_at := some now }) },
          ReadResult.ok (some msg.id)))
    ∧ ((s.messages.map Msg.id).Nodup → ∀ now2,
        (markRead (markRead s cId uId msgId now).1 cId uId msgId now2).1
          = (markRead s cId uId msgId now).1) := by
  have heq := markRead_eq s cId uId msgId now part msg hpart hmsg
  refine ⟨?_, ?_, ?_⟩
  · intro i prev hi hprev hle
    have hd : (match part.last_read_message with
        | none => true
        | some j =>
          match getMsg s j with
          | some prev2 => decide (prev2.created_at < msg.created_at)
          | none => true) = false := by
      rw [hi]
      show (match getMsg s i with
            | some prev2 => decide (prev2.created_at < msg.created_at)
            | none => true) = false
      rw [hprev]
      show decide (prev.created_at < msg.created_at) = false
      simp [not_lt.mpr hle]
    rw [heq, hd]
    simp [hi]
  · intro h0
    rw [heq, h0]
    simp
  · intro hnodup now2
    have hmem : msg ∈ s.messages := List.mem_of_find?_eq_some hmsg
    by_cases hcond : (match part.last_read_message with
        | none => true
        | some i =>
          match getMsg s i with
          | some prev => decide (prev.created_at < msg.created_at)
          | none => true) = true
    · -- first call updates the cursor; the second call is a no-op
      set f : Participant → Participant := fun p =>
        { p with last_read_message := some msg.id, last_read_at := some now } with hfdef
      set s1 : Store :=
        { s with participants := updatePart s.participants cId uId f } with hs1def
      have hfst : (markRead s cId uId msgId now).1 = s1 := by
        rw [heq, if_pos hcond]
      rw [hfst]
      have hpart1 : findPart s1 cId uId = some (f part) :=
        find?_updatePart f (fun p => ⟨rfl, rfl⟩) hpart
      have hmsg1 : findMsgIn s1 msgId cId = some msg := hmsg
      have hget1 : getMsg s1 msg.id = some msg :=
        find?_eq_some_of_nodup_map (f := Msg.id) hnodup hmem
      have heq2 := markRead_eq s1 cId uId msgId now2 (f part) msg hpart1 hmsg1
      have hd2 : (match (f part).last_read_message with
          | none => true
          | some j =>
            match getMsg s1 j with
            | some prev2 => decide (prev2.created_at < msg.created_at)
            | none => true) = false := by
        show (match getMsg s1 msg.id with
              | some prev2 => decide (prev2.created_at < msg.created_at)
              | none => true) = false
        rw [hget1]
        show decide (msg.created_at < msg.created_at) = false
        simp
      rw [heq2, hd2]
      simp
    · rw [heq, if_neg hcond]
      have heq2 := markRead_eq s cId uId msgId now2 part msg hpart hmsg
      rw [heq2, if_neg hcond]

/-- Concrete instantiation of the mark-read theorem on `exampleStore`:
marking message 1 (older than user 2's cursor at message 2) is a no-op
returning the old cursor, and repeating a call changes nothing. -/
theorem c3_mark_read_monotonic_witness :
    markRead exampleStore 1 2 1 9 = (exampleStore, ReadResult.ok (some 2))
    ∧ (markRead (markRead exampleStore 1 2 3 9).1 1 2 3 11).1
        = (markRead exampleStore 1 2 3 9).1 :=
  ⟨(c3_mark_read_monotonic exampleStore 1 2 1 9 (Participant.mk 1 2 (some 2) (some 9))
      (exMsg 1 1) (by decide) (by decide)).1 2 (exMsg 2 2) rfl (by decide) (by decide),
   (c3_mark_read_monotonic exampleStore 1 2 3 9 (Participant.mk 1 2 (some 2) (some 9))
      (exMsg 3 3) (by decide) (by decide)).2.2 (by decide) 11⟩

theorem c8_next_before_cursor_witness :
    (listMessages exampleStore 1 (some 3) none 50).next_before = some 1
    ∧ (1 : Nat) < 3 :=
  ⟨by decide, (c8_next_before_cursor exampleStore 1 50 (some 3)).2.2 3 1 rfl (by decide)⟩

end Chat
